import Mathlib

/-!
Verification of the SUNXI PWM register-interface library (pwm.c) against its
natural-language specification.  The C code is embedded shallowly: the global
base address and the memory-mapped register block become an explicit state
record, each exported function becomes a Lean function from state and
arguments to a pair of the C return value and the state after the call, and
all machine arithmetic is `Nat` arithmetic truncated at the C type widths.
-/

namespace Sunxi

/-- Modulus of the C type unsigned int (32 bits). -/
def U32 : Nat := 2 ^ 32

/-- Modulus of the C type __u64 (64 bits). -/
def U64 : Nat := 2 ^ 64

/-- Truncation to 32 bits, as C unsigned int arithmetic does. -/
def mask32 (x : Nat) : Nat := x % U32

/-- Truncation to 64 bits, as C __u64 arithmetic does. -/
def mask64 (x : Nat) : Nat := x % U64

/-- Bitwise complement within 32 bits: the value the C expression ~m denotes
when used in an assignment to an unsigned int, for m < 2^32. -/
def not32 (m : Nat) : Nat := (U32 - 1) ^^^ m

/-- The C expression x - 1 in 64-bit unsigned arithmetic (wraps at zero). -/
def sub1_64 (x : Nat) : Nat := (x + (U64 - 1)) % U64

/-- The C expression x - 1 in 32-bit unsigned arithmetic (wraps at zero). -/
def sub1_32 (x : Nat) : Nat := (x + (U32 - 1)) % U32

/-- Error number EPERM from errno.h (operation not permitted). -/
def EPERM : Int := 1

/-- Error number EINVAL from errno.h (invalid argument). -/
def EINVAL : Int := 22

/-- Modelled from the spec: pwm.h is not under src/; the spec says polarity is
normal or inversed, the normal value being the constant SUNXI_PWM_POLARITY_NORMAL
that sunxi_pwm_set_polarity compares its argument against. -/
def SUNXI_PWM_POLARITY_NORMAL : Nat := 0

/-- Macro SUNXI_PWM_EN (pwm.c line 20): enable bit for channel ch. -/
def SUNXI_PWM_EN (ch : Nat) : Nat := (1 <<< 4) <<< (15 * ch)

/-- Macro SUNXI_PWM_ACT_STATE (pwm.c line 21): active-state bit for channel ch. -/
def SUNXI_PWM_ACT_STATE (ch : Nat) : Nat := (1 <<< 5) <<< (15 * ch)

/-- Macro SUNXI_PWM_CLK_GATING (pwm.c line 22): clock-gating bit for channel ch. -/
def SUNXI_PWM_CLK_GATING (ch : Nat) : Nat := (1 <<< 6) <<< (15 * ch)

/-- Macro SUNXI_PWM_PRESCALAR (pwm.c line 23): prescaler field value p placed at
channel ch's bit offset. -/
def SUNXI_PWM_PRESCALAR (ch p : Nat) : Nat := p <<< (15 * ch)

/-- The struct sunxi_pwm_reg (pwm.c lines 26-29): the control register and the
two per-channel period registers, as 32-bit words. -/
structure sunxi_pwm_reg where
  ctrl : Nat
  ch_period0 : Nat
  ch_period1 : Nat
deriving DecidableEq

/-- Read reg->ch_period[ch]. -/
def ch_period (r : sunxi_pwm_reg) (ch : Nat) : Nat :=
  if ch = 0 then r.ch_period0 else r.ch_period1

/-- Write reg->ch_period[ch] = v. -/
def set_ch_period (r : sunxi_pwm_reg) (ch v : Nat) : sunxi_pwm_reg :=
  if ch = 0 then { r with ch_period0 := v } else { r with ch_period1 := v }

/-- The library state: the global sunxi_pwm_base_address (pwm.c line 37, zero
until sunxi_pwm_init has succeeded) together with the contents of the device
registers the mapped pointer gives access to. -/
structure sunxi_pwm_state where
  base_address : Nat
  reg : sunxi_pwm_reg
deriving DecidableEq

/-- The prescaler table local to sunxi_pwm_set_config (pwm.c line 114). -/
def prescaler_table (i : Nat) : Nat :=
  match i with
  | 0 => 120
  | 1 => 180
  | 2 => 240
  | 3 => 360
  | 4 => 480
  | 8 => 12000
  | 9 => 24000
  | 10 => 36000
  | 11 => 48000
  | 12 => 72000
  | _ => 0

/-- One loop iteration's tick computation in sunxi_pwm_set_config (pwm.c lines
124-127): div = 24000000; div = div / prescaler_table[i]; div = div * period_ns;
div = div / 1000000000, in 64-bit unsigned arithmetic.  The loop evaluates this
only at indices whose table entry is nonzero. -/
def ticks64 (period_ns i : Nat) : Nat :=
  mask64 ((24000000 / prescaler_table i) * mask64 period_ns) / 1000000000

/-- The prescaler search loop of sunxi_pwm_set_config (pwm.c lines 122-129):
i is the C loop variable prescaler, div the current value of the C variable div
(uninitialized before the loop in C, but index 0's table entry is nonzero, so
div is always assigned before it is read), and fuel counts the remaining
iterations 15 - i, so that the loop guard prescaler < 0x0F holds exactly when
fuel is nonzero.  Returns the values of (prescaler, div) at the loop exit. -/
def pwm_search_aux (period_ns : Nat) : Nat → Nat → Nat → Nat × Nat
  | 0, i, div => (i, div)
  | fuel + 1, i, div =>
    if prescaler_table i = 0 then pwm_search_aux period_ns fuel (i + 1) div
    else if sub1_64 (ticks64 period_ns i) ≤ 0xFFFF then (i, ticks64 period_ns i)
    else pwm_search_aux period_ns fuel (i + 1) (ticks64 period_ns i)

def pwm_search (period_ns : Nat) (i div : Nat) : Nat × Nat :=
  pwm_search_aux period_ns (15 - i) i div

/-- The value written to reg->ch_period[ch] by sunxi_pwm_set_config (pwm.c line
144): ((prd - 1) << 16) + (dty & 0xFFFF), in unsigned int arithmetic. -/
def period_reg_value (prd dty : Nat) : Nat :=
  mask32 ((sub1_32 prd <<< 16) + (dty &&& 0xFFFF))

/-- sunxi_pwm_set_polarity (pwm.c lines 87-102): the returned error code and
the state after the call. -/
def sunxi_pwm_set_polarity (s : sunxi_pwm_state) (ch pol : Nat) :
    Int × sunxi_pwm_state :=
  if s.base_address = 0 then (-EPERM, s)
  else
    (0, { s with reg := { s.reg with ctrl :=
      (if pol = SUNXI_PWM_POLARITY_NORMAL
        then mask32 (s.reg.ctrl ||| SUNXI_PWM_ACT_STATE ch)
        else mask32 (s.reg.ctrl &&& not32 (SUNXI_PWM_ACT_STATE ch))) } })

/-- The control-register update of sunxi_pwm_set_config (pwm.c lines 140-145):
save the channel's clock-gating bit, clear it, clear the channel's 4-bit
prescaler field, or in the new prescaler value, and restore the gating bit if
it was set. -/
def config_ctrl (c ch prescaler : Nat) : Nat :=
  let clk_gating := c &&& SUNXI_PWM_CLK_GATING ch
  let c1 := mask32 (c &&& not32 (SUNXI_PWM_CLK_GATING ch))
  let c2 := mask32 (c1 &&& not32 (SUNXI_PWM_PRESCALAR ch 0x0F))
  let c3 := mask32 (c2 ||| SUNXI_PWM_PRESCALAR ch prescaler)
  if clk_gating ≠ 0 then mask32 (c3 ||| SUNXI_PWM_CLK_GATING ch) else c3

/-- sunxi_pwm_set_config (pwm.c lines 111-148): the returned error code and the
state after the call. -/
def sunxi_pwm_set_config (s : sunxi_pwm_state) (ch : Nat) (period_ns duty_ns : Nat) :
    Int × sunxi_pwm_state :=
  if s.base_address = 0 then (-EPERM, s)
  else if 0xFFFF < sub1_64 (pwm_search period_ns 0 0).2 then (-EINVAL, s)
  else
    (0, { s with
            reg := set_ch_period
              { s.reg with ctrl :=
                  config_ctrl s.reg.ctrl ch (pwm_search period_ns 0 0).1 } ch
              (period_reg_value (mask32 (pwm_search period_ns 0 0).2)
                (mask32 (mask64 ((pwm_search period_ns 0 0).2 * mask64 duty_ns) /
                  mask64 period_ns))) })

/-- sunxi_pwm_enable (pwm.c lines 155-168): the returned error code and the
state after the call. -/
def sunxi_pwm_enable (s : sunxi_pwm_state) (ch : Nat) : Int × sunxi_pwm_state :=
  if s.base_address = 0 then (-EPERM, s)
  else
    (0, { s with reg := { s.reg with ctrl :=
      (mask32 (mask32 (s.reg.ctrl ||| SUNXI_PWM_EN ch) ||| SUNXI_PWM_CLK_GATING ch)) } })

/-- sunxi_pwm_disable (pwm.c lines 175-188): the returned error code and the
state after the call. -/
def sunxi_pwm_disable (s : sunxi_pwm_state) (ch : Nat) : Int × sunxi_pwm_state :=
  if s.base_address = 0 then (-EPERM, s)
  else
    (0, { s with reg := { s.reg with ctrl :=
      (mask32 (mask32 (s.reg.ctrl &&& not32 (SUNXI_PWM_EN ch)) &&&
        not32 (SUNXI_PWM_CLK_GATING ch))) } })

/-- The exact mathematical tick count (24000000 / divisor) * period_ns / 10^9,
with no 64-bit truncation; written from the spec's formula to compare against
the 64-bit computation ticks64. -/
def exact_ticks (period_ns i : Nat) : Nat :=
  (24000000 / prescaler_table i) * period_ns / 1000000000

/-! Basic arithmetic and bit-level helper lemmas. -/

theorem testBit_mask32 (x i : Nat) :
    (mask32 x).testBit i = (decide (i < 32) && x.testBit i) := by
  rw [show mask32 x = x % 2 ^ 32 from rfl, Nat.testBit_mod_two_pow]

theorem testBit_not32 (m i : Nat) :
    (not32 m).testBit i = (decide (i < 32) ^^ m.testBit i) := by
  rw [show not32 m = (2 ^ 32 - 1) ^^^ m from rfl, Nat.testBit_xor,
    Nat.testBit_two_pow_sub_one]

theorem testBit_high {c : Nat} (i : Nat) (hc : c < 2 ^ 32) (hi : 32 ≤ i) :
    c.testBit i = false :=
  Nat.testBit_eq_false_of_lt (lt_of_lt_of_le hc (Nat.pow_le_pow_right (by norm_num) hi))

theorem testBit_small {j : Nat} (i : Nat) (hj : j < 16) (hi : 4 ≤ i) :
    j.testBit i = false := by
  apply Nat.testBit_eq_false_of_lt
  calc j < 16 := hj
    _ = 2 ^ 4 := by norm_num
    _ ≤ 2 ^ i := Nat.pow_le_pow_right (by norm_num) hi

theorem EN_eq (ch : Nat) : SUNXI_PWM_EN ch = 2 ^ (4 + 15 * ch) := by
  simp [SUNXI_PWM_EN, Nat.shiftLeft_eq, pow_add]

theorem ACT_eq (ch : Nat) : SUNXI_PWM_ACT_STATE ch = 2 ^ (5 + 15 * ch) := by
  simp [SUNXI_PWM_ACT_STATE, Nat.shiftLeft_eq, pow_add]

theorem GATING_eq (ch : Nat) : SUNXI_PWM_CLK_GATING ch = 2 ^ (6 + 15 * ch) := by
  simp [SUNXI_PWM_CLK_GATING, Nat.shiftLeft_eq, pow_add]

theorem PRESCALAR_eq (ch p : Nat) : SUNXI_PWM_PRESCALAR ch p = p * 2 ^ (15 * ch) := by
  simp [SUNXI_PWM_PRESCALAR, Nat.shiftLeft_eq]

theorem sub1_32_eq {t : Nat} (h1 : 1 ≤ t) (h2 : t ≤ 2 ^ 32) : sub1_32 t = t - 1 := by
  unfold sub1_32 U32
  have e : t + (2 ^ 32 - 1) = (t - 1) + 2 ^ 32 := by omega
  rw [e, Nat.add_mod_right, Nat.mod_eq_of_lt (by omega)]

theorem sub1_64_eq {t : Nat} (h1 : 1 ≤ t) (h2 : t ≤ 2 ^ 64) : sub1_64 t = t - 1 := by
  unfold sub1_64 U64
  have e : t + (2 ^ 64 - 1) = (t - 1) + 2 ^ 64 := by omega
  rw [e, Nat.add_mod_right, Nat.mod_eq_of_lt (by omega)]

theorem ticks64_lt (p i : Nat) : ticks64 p i < 2 ^ 64 := by
  unfold ticks64 mask64 U64
  exact lt_of_le_of_lt (Nat.div_le_self _ _) (Nat.mod_lt _ (by norm_num))

theorem ticks_range {p j : Nat} (hok : sub1_64 (ticks64 p j) ≤ 0xFFFF) :
    1 ≤ ticks64 p j ∧ ticks64 p j ≤ 0x10000 := by
  have ht := ticks64_lt p j
  rcases Nat.eq_zero_or_pos (ticks64 p j) with h0 | h1
  · rw [h0] at hok
    have e : sub1_64 0 = 2 ^ 64 - 1 := by
      unfold sub1_64 U64
      rw [Nat.zero_add, Nat.mod_eq_of_lt (by norm_num)]
    rw [e] at hok
    norm_num at hok
  · rw [sub1_64_eq h1 (le_of_lt ht)] at hok
    constructor
    · exact h1
    · omega

theorem set_ch_period_ctrl (r : sunxi_pwm_reg) (ch v : Nat) :
    (set_ch_period r ch v).ctrl = r.ctrl := by
  unfold set_ch_period
  by_cases h : ch = 0 <;> simp [h]

theorem ch_period_set_same (r : sunxi_pwm_reg) (ch v : Nat) :
    ch_period (set_ch_period r ch v) ch = v := by
  unfold ch_period set_ch_period
  by_cases h : ch = 0 <;> simp [h]

/-! Characterization of the prescaler search loop: either it breaks at the
least admissible index, or it runs to completion with every admissible index
having failed the 16-bit test, the final div being the initial one or the tick
count of some index whose table entry is nonzero. -/

theorem pwm_search_spec (p : Nat) :
    ∀ n i div, i + n = 15 →
    (∃ j, i ≤ j ∧ j < 15 ∧ prescaler_table j ≠ 0 ∧
       sub1_64 (ticks64 p j) ≤ 0xFFFF ∧
       (∀ k, i ≤ k → k < j → prescaler_table k ≠ 0 →
         0xFFFF < sub1_64 (ticks64 p k)) ∧
       pwm_search_aux p n i div = (j, ticks64 p j)) ∨
    ((∀ k, i ≤ k → k < 15 → prescaler_table k ≠ 0 →
        0xFFFF < sub1_64 (ticks64 p k)) ∧
       (pwm_search_aux p n i div).1 = 15 ∧
       ((pwm_search_aux p n i div).2 = div ∨
        ∃ k, i ≤ k ∧ k < 15 ∧ prescaler_table k ≠ 0 ∧
          (pwm_search_aux p n i div).2 = ticks64 p k)) := by
  intro n
  induction n with
  | zero =>
    intro i div hi
    have h15 : i = 15 := by omega
    subst h15
    right
    exact ⟨fun k hk hk15 _ => by omega, rfl, Or.inl rfl⟩
  | succ n ih =>
    intro i div hi
    have hlt : i < 15 := by omega
    simp only [pwm_search_aux]
    by_cases hz : prescaler_table i = 0
    · rw [if_pos hz]
      rcases ih (i + 1) div (by omega) with
        ⟨j, hij, hj, hnz, hok, hmin, heq⟩ | ⟨hall, h1, h2⟩
      · left
        refine ⟨j, by omega, hj, hnz, hok, ?_, heq⟩
        intro k hk hkj hknz
        rcases Nat.eq_or_lt_of_le hk with hk' | hk'
        · subst hk'; exact absurd hz hknz
        · exact hmin k hk' hkj hknz
      · right
        refine ⟨?_, h1, ?_⟩
        · intro k hk hk15 hknz
          rcases Nat.eq_or_lt_of_le hk with hk' | hk'
          · subst hk'; exact absurd hz hknz
          · exact hall k hk' hk15 hknz
        · rcases h2 with h | ⟨k, hk, hk15, hknz, heq⟩
          · left; exact h
          · right; exact ⟨k, by omega, hk15, hknz, heq⟩
    · rw [if_neg hz]
      by_cases hok : sub1_64 (ticks64 p i) ≤ 0xFFFF
      · rw [if_pos hok]
        left
        exact ⟨i, le_refl i, hlt, hz, hok, fun k hk hkj _ => by omega, rfl⟩
      · rw [if_neg hok]
        rcases ih (i + 1) (ticks64 p i) (by omega) with
          ⟨j, hij, hj, hnz, hok', hmin, heq⟩ | ⟨hall, h1, h2⟩
        · left
          refine ⟨j, by omega, hj, hnz, hok', ?_, heq⟩
          intro k hk hkj hknz
          rcases Nat.eq_or_lt_of_le hk with hk' | hk'
          · subst hk'; omega
          · exact hmin k hk' hkj hknz
        · right
          refine ⟨?_, h1, ?_⟩
          · intro k hk hk15 hknz
            rcases Nat.eq_or_lt_of_le hk with hk' | hk'
            · subst hk'; omega
            · exact hall k hk' hk15 hknz
          · right
            rcases h2 with h | ⟨k, hk, hk15, hknz, heq⟩
            · exact ⟨i, le_refl i, hlt, hz, h⟩
            · exact ⟨k, by omega, hk15, hknz, heq⟩

/-- If index j is the first nonzero table entry whose tick count passes the
16-bit test, the search loop exits at j with j's tick count. -/
theorem pwm_search_found (p j : Nat) (hj : j < 15) (hnz : prescaler_table j ≠ 0)
    (hok : sub1_64 (ticks64 p j) ≤ 0xFFFF)
    (hmin : ∀ k, k < j → prescaler_table k ≠ 0 → 0xFFFF < sub1_64 (ticks64 p k)) :
    pwm_search p 0 0 = (j, ticks64 p j) := by
  rw [show pwm_search p 0 0 = pwm_search_aux p 15 0 0 from rfl]
  rcases pwm_search_spec p 15 0 0 rfl with
    ⟨j', _, hj', hnz', hok', hmin', heq⟩ | ⟨hall, _, _⟩
  · have hjj : j' = j := by
      by_contra hne
      rcases Nat.lt_or_ge j' j with h | h
      · have := hmin j' h hnz'; omega
      · have hlt2 : j < j' := by omega
        have := hmin' j (Nat.zero_le j) hlt2 hnz
        omega
    subst hjj
    exact heq
  · have := hall j (Nat.zero_le j) hj hnz
    omega

/-- If no nonzero table entry passes the 16-bit test, the div value at loop
exit fails the post-loop check. -/
theorem pwm_search_fail (p : Nat)
    (hall : ∀ k, k < 15 → prescaler_table k ≠ 0 → 0xFFFF < sub1_64 (ticks64 p k)) :
    0xFFFF < sub1_64 (pwm_search p 0 0).2 := by
  rw [show pwm_search p 0 0 = pwm_search_aux p 15 0 0 from rfl]
  rcases pwm_search_spec p 15 0 0 rfl with
    ⟨j, _, hj, hnz, hok, _, _⟩ | ⟨_, _, h2⟩
  · have := hall j hj hnz; omega
  · rcases h2 with h | ⟨k, _, hk, hnz, heq⟩
    · rw [h]; decide
    · rw [heq]; exact hall k hk hnz

/-- If the post-loop 16-bit check passes, the loop broke at a first-fit index. -/
theorem pwm_search_of_success (p : Nat)
    (h : ¬ 0xFFFF < sub1_64 (pwm_search p 0 0).2) :
    ∃ j, j < 15 ∧ prescaler_table j ≠ 0 ∧ sub1_64 (ticks64 p j) ≤ 0xFFFF ∧
      pwm_search p 0 0 = (j, ticks64 p j) := by
  rw [show pwm_search p 0 0 = pwm_search_aux p 15 0 0 from rfl] at h ⊢
  rcases pwm_search_spec p 15 0 0 rfl with
    ⟨j, _, hj, hnz, hok, _, heq⟩ | ⟨hall, _, h2⟩
  · exact ⟨j, hj, hnz, hok, heq⟩
  · exfalso
    rcases h2 with he | ⟨k, _, hk, hnz, heq⟩
    · exact h (by rw [he]; decide)
    · rw [heq] at h
      exact h (hall k (Nat.zero_le k) hk hnz)

/-! Bit-level properties of the control-register update performed by
sunxi_pwm_set_config. -/

theorem and_two_pow_ne_zero (c k : Nat) : c &&& 2 ^ k ≠ 0 ↔ c.testBit k = true := by
  have h2 : (0 : Nat) < 2 ^ k := Nat.pos_pow_of_pos k (by norm_num)
  rw [Nat.and_two_pow]
  rcases Bool.eq_false_or_eq_true (c.testBit k) with h | h <;> simp [h]

theorem testBit_15 (k : Nat) : Nat.testBit 15 k = decide (k < 4) := by
  rw [show (15 : Nat) = 2 ^ 4 - 1 from by norm_num, Nat.testBit_two_pow_sub_one]

/-- Full bit map of config_ctrl: the channel's clock-gating bit is preserved,
the channel's 4-bit prescaler field holds the new prescaler, and every other
bit of the control register is unchanged. -/
theorem config_ctrl_testBit (c ch j : Nat) (hc : c < 2 ^ 32) (hch : ch < 2)
    (hj : j < 16) (i : Nat) :
    (config_ctrl c ch j).testBit i =
      if i = 6 + 15 * ch then c.testBit i
      else if 15 * ch ≤ i ∧ i < 15 * ch + 4 then j.testBit (i - 15 * ch)
      else c.testBit i := by
  have hc6 : 6 + 15 * ch < 32 := by omega
  unfold config_ctrl
  simp only [GATING_eq, SUNXI_PWM_PRESCALAR]
  by_cases hg : c &&& 2 ^ (6 + 15 * ch) ≠ 0
  · have hbit : c.testBit (6 + 15 * ch) = true := (and_two_pow_ne_zero _ _).mp hg
    rw [if_pos hg]
    simp only [testBit_mask32, Nat.testBit_or, Nat.testBit_and, testBit_not32,
      Nat.testBit_shiftLeft, Nat.testBit_two_pow, testBit_15]
    by_cases h32 : i < 32
    · by_cases h6 : i = 6 + 15 * ch
      · subst h6
        simp [hbit, hc6]
      · by_cases hf : 15 * ch ≤ i ∧ i < 15 * ch + 4
        · have e1 : i ≥ 15 * ch := hf.1
          have e2 : i - 15 * ch < 4 := by omega
          have e3 : ¬(6 + 15 * ch = i) := fun h => h6 h.symm
          simp [h32, e1, e2, e3, h6, hf]
        · have e3 : ¬(6 + 15 * ch = i) := fun h => h6 h.symm
          rcases Nat.lt_or_ge i (15 * ch) with hlo | hhi
          · have e1 : ¬(i ≥ 15 * ch) := by omega
            simp [h32, e1, e3, h6, hf]
          · have e2 : ¬(i - 15 * ch < 4) := by omega
            have e4 : j.testBit (i - 15 * ch) = false :=
              testBit_small _ hj (by omega)
            simp [h32, hhi, e2, e3, e4, h6, hf]
            intro _
            omega
    · have e5 : c.testBit i = false := testBit_high i hc (by omega)
      have e3 : ¬(i = 6 + 15 * ch) := by omega
      have e6 : ¬(15 * ch ≤ i ∧ i < 15 * ch + 4) := by omega
      simp [h32, e3, e5, e6]
  · have hbit : c.testBit (6 + 15 * ch) = false := by
      rcases Bool.eq_false_or_eq_true (c.testBit (6 + 15 * ch)) with h | h
      · exact absurd ((and_two_pow_ne_zero _ _).mpr h) hg
      · exact h
    rw [if_neg hg]
    simp only [testBit_mask32, Nat.testBit_or, Nat.testBit_and, testBit_not32,
      Nat.testBit_shiftLeft, Nat.testBit_two_pow, testBit_15]
    by_cases h32 : i < 32
    · by_cases h6 : i = 6 + 15 * ch
      · subst h6
        have e4 : j.testBit 6 = false := testBit_small _ hj (by omega)
        simp [hbit, hc6, e4]
      · by_cases hf : 15 * ch ≤ i ∧ i < 15 * ch + 4
        · have e1 : i ≥ 15 * ch := hf.1
          have e2 : i - 15 * ch < 4 := by omega
          have e3 : ¬(6 + 15 * ch = i) := fun h => h6 h.symm
          simp [h32, e1, e2, e3, h6, hf]
        · have e3 : ¬(6 + 15 * ch = i) := fun h => h6 h.symm
          rcases Nat.lt_or_ge i (15 * ch) with hlo | hhi
          · have e1 : ¬(i ≥ 15 * ch) := by omega
            simp [h32, e1, e3, h6, hf]
          · have e2 : ¬(i - 15 * ch < 4) := by omega
            have e4 : j.testBit (i - 15 * ch) = false :=
              testBit_small _ hj (by omega)
            simp [h32, hhi, e2, e3, e4, h6, hf]
            intro _
            omega
    · have e5 : c.testBit i = false := testBit_high i hc (by omega)
      have e3 : ¬(i = 6 + 15 * ch) := by omega
      have e6 : ¬(15 * ch ≤ i ∧ i < 15 * ch + 4) := by omega
      simp [h32, e3, e5, e6]

/-- config_ctrl preserves the channel's clock-gating bit. -/
theorem config_ctrl_gating (c ch j : Nat) (hc : c < 2 ^ 32) (hch : ch < 2)
    (hj : j < 16) :
    (config_ctrl c ch j).testBit (6 + 15 * ch) = c.testBit (6 + 15 * ch) := by
  rw [config_ctrl_testBit c ch j hc hch hj]
  simp

/-- config_ctrl stores the prescaler index in the channel's 4-bit field. -/
theorem config_ctrl_field (c ch j : Nat) (hc : c < 2 ^ 32) (hch : ch < 2)
    (hj : j < 16) :
    (config_ctrl c ch j >>> (15 * ch)) &&& 0xF = j := by
  rw [show (0xF : Nat) = 2 ^ 4 - 1 from by norm_num]
  apply Nat.eq_of_testBit_eq
  intro i
  rw [Nat.testBit_and, Nat.testBit_two_pow_sub_one, Nat.testBit_shiftRight,
    config_ctrl_testBit c ch j hc hch hj]
  by_cases h4 : i < 4
  · have h1 : ¬(15 * ch + i = 6 + 15 * ch) := by omega
    have h2 : 15 * ch ≤ 15 * ch + i ∧ 15 * ch + i < 15 * ch + 4 := by omega
    have h3 : 15 * ch + i - 15 * ch = i := by omega
    simp [h1, h2, h3, h4]
  · have hj4 : j.testBit i = false := testBit_small i hj (by omega)
    simp [h4, hj4]

/-! The success path of sunxi_pwm_set_config. -/

theorem period_reg_value_eq (t x : Nat) (h1 : 1 ≤ t) (h2 : t ≤ 2 ^ 16) :
    period_reg_value (mask32 t) (mask32 x) = (t - 1) * 2 ^ 16 + x % 2 ^ 16 := by
  have ht32 : t < 2 ^ 32 := lt_of_le_of_lt h2 (by norm_num)
  have hm : mask32 t = t := Nat.mod_eq_of_lt ht32
  unfold period_reg_value
  rw [hm, sub1_32_eq h1 (le_trans h2 (by norm_num)), Nat.shiftLeft_eq,
    show (0xFFFF : Nat) = 2 ^ 16 - 1 from by norm_num,
    Nat.and_pow_two_sub_one_eq_mod,
    show mask32 x = x % 2 ^ 32 from rfl,
    Nat.mod_mod_of_dvd x (by norm_num : (2 : Nat) ^ 16 ∣ 2 ^ 32)]
  apply Nat.mod_eq_of_lt
  have hx : x % 2 ^ 16 < 2 ^ 16 := Nat.mod_lt _ (by norm_num)
  have hb : (t - 1) * 2 ^ 16 ≤ (2 ^ 16 - 1) * 2 ^ 16 :=
    Nat.mul_le_mul_right _ (by omega)
  unfold U32
  norm_num at hb ⊢
  omega

/-- What a successful sunxi_pwm_set_config call returns and writes, in terms of
the first prescaler index j whose table entry is nonzero and whose tick count
passes the 16-bit test. -/
theorem set_config_success_spec (s : sunxi_pwm_state) (ch p d j : Nat)
    (hinit : s.base_address ≠ 0) (hch : ch < 2) (hc : s.reg.ctrl < 2 ^ 32)
    (hj : j < 16) (hnz : prescaler_table j ≠ 0)
    (hok : sub1_64 (ticks64 p j) ≤ 0xFFFF)
    (hmin : ∀ k, k < j → prescaler_table k ≠ 0 → 0xFFFF < sub1_64 (ticks64 p k)) :
    (sunxi_pwm_set_config s ch p d).1 = 0 ∧
    ((sunxi_pwm_set_config s ch p d).2.reg.ctrl >>> (15 * ch)) &&& 0xF = j ∧
    ch_period (sunxi_pwm_set_config s ch p d).2.reg ch =
      (ticks64 p j - 1) * 2 ^ 16 +
        (mask64 (ticks64 p j * mask64 d) / mask64 p) % 2 ^ 16 := by
  have hj15 : j < 15 := by
    rcases Nat.lt_or_ge j 15 with h | h
    · exact h
    · exfalso
      apply hnz
      have hj' : j = 15 := by omega
      rw [hj']
      rfl
  have hfound := pwm_search_found p j hj15 hnz hok hmin
  obtain ⟨ht1, ht2⟩ := ticks_range hok
  unfold sunxi_pwm_set_config
  rw [if_neg hinit, hfound]
  rw [if_neg (show ¬ 0xFFFF < sub1_64 (j, ticks64 p j).2 from not_lt.mpr hok)]
  refine ⟨rfl, ?_, ?_⟩
  · dsimp only
    rw [set_ch_period_ctrl]
    exact config_ctrl_field s.reg.ctrl ch j hc hch hj
  · dsimp only
    rw [ch_period_set_same]
    exact period_reg_value_eq (ticks64 p j) _ ht1 (by omega)

/-- The error path of sunxi_pwm_set_config: if every nonzero table entry fails
the 16-bit test, the call returns -EINVAL with the state untouched. -/
theorem set_config_einval (s : sunxi_pwm_state) (ch p d : Nat)
    (hinit : s.base_address ≠ 0)
    (hall : ∀ k, k < 15 → prescaler_table k ≠ 0 → 0xFFFF < sub1_64 (ticks64 p k)) :
    sunxi_pwm_set_config s ch p d = (-EINVAL, s) := by
  have hfail := pwm_search_fail p hall
  unfold sunxi_pwm_set_config
  rw [if_neg hinit, if_pos hfail]

/-- For periods below 5000 ns every nonzero prescaler entry computes zero
ticks. -/
theorem ticks64_zero_of_small (q k : Nat) (hq : q < 5000) (hk : k < 16) :
    ticks64 q k = 0 := by
  have hf : 24000000 / prescaler_table k ≤ 200000 := by
    interval_cases k <;> norm_num [prescaler_table]
  unfold ticks64 mask64 U64
  have h1 : q % 2 ^ 64 = q := Nat.mod_eq_of_lt (lt_trans hq (by norm_num))
  rw [h1]
  have h2 : 24000000 / prescaler_table k * q < 1000000000 := by
    calc 24000000 / prescaler_table k * q ≤ 200000 * q := Nat.mul_le_mul_right q hf
      _ < 1000000000 := by omega
  rw [Nat.mod_eq_of_lt (lt_trans h2 (by norm_num)), Nat.div_eq_of_lt h2]

/-- C1: for every initialized state, channel in 0..1, and inputs period_ns and
duty_ns, if some nonzero prescaler-table entry yields a 64-bit tick count with
ticks - 1 at most 65535 (in the code's 64-bit wrapping arithmetic), then
set_config returns success, selects the smallest such index (skipping zero
entries), writes that index into the channel's 4-bit prescaler field, and
writes the period register with period ticks equal to that tick count and duty
ticks equal to ticks * duty_ns / period_ns computed in the same 64-bit
arithmetic from the already-rounded ticks. -/
theorem set_config_first_fit (s : sunxi_pwm_state) (ch p d j : Nat)
    (hinit : s.base_address ≠ 0) (hch : ch < 2) (hc : s.reg.ctrl < 2 ^ 32)
    (hj : j < 16) (hnz : prescaler_table j ≠ 0)
    (hok : sub1_64 (ticks64 p j) ≤ 0xFFFF)
    (hmin : ∀ k, k < j → prescaler_table k ≠ 0 → 0xFFFF < sub1_64 (ticks64 p k)) :
    (sunxi_pwm_set_config s ch p d).1 = 0 ∧
    ((sunxi_pwm_set_config s ch p d).2.reg.ctrl >>> (15 * ch)) &&& 0xF = j ∧
    ch_period (sunxi_pwm_set_config s ch p d).2.reg ch =
      (ticks64 p j - 1) * 2 ^ 16 +
        (mask64 (ticks64 p j * mask64 d) / mask64 p) % 2 ^ 16 :=
  set_config_success_spec s ch p d j hinit hch hc hj hnz hok hmin

/-- Witness for C1 at the servo example: period 20 ms, duty 1.5 ms, first fit
at index 0. -/
theorem set_config_first_fit_witness :
    (sunxi_pwm_set_config ⟨1, ⟨0, 0, 0⟩⟩ 0 20000000 1500000).1 = 0 ∧
    ((sunxi_pwm_set_config ⟨1, ⟨0, 0, 0⟩⟩ 0 20000000 1500000).2.reg.ctrl >>>
      (15 * 0)) &&& 0xF = 0 ∧
    ch_period (sunxi_pwm_set_config ⟨1, ⟨0, 0, 0⟩⟩ 0 20000000 1500000).2.reg 0 =
      (ticks64 20000000 0 - 1) * 2 ^ 16 +
        (mask64 (ticks64 20000000 0 * mask64 1500000) / mask64 20000000) % 2 ^ 16 :=
  set_config_first_fit ⟨1, ⟨0, 0, 0⟩⟩ 0 20000000 1500000 0
    (by decide) (by decide) (by decide) (by decide) (by decide) (by decide)
    (fun k hk _ => absurd hk (Nat.not_lt_zero k))

/-- C2: for every initialized state and channel, if no prescaler-table entry
yields a tick count passing the 16-bit test, set_config returns -EINVAL and
leaves the whole state (control register and both period registers)
unchanged. -/
theorem set_config_no_fit (s : sunxi_pwm_state) (ch p d : Nat)
    (hinit : s.base_address ≠ 0) (hch : ch < 2)
    (hall : ∀ k, k < 16 → prescaler_table k ≠ 0 → 0xFFFF < sub1_64 (ticks64 p k)) :
    sunxi_pwm_set_config s ch p d = (-EINVAL, s) :=
  set_config_einval s ch p d hinit (fun k hk hnz => hall k (by omega) hnz)

/-- Witness for C2 at a 1000-second period, which no prescaler can represent. -/
theorem set_config_no_fit_witness :
    sunxi_pwm_set_config ⟨1, ⟨7, 8, 9⟩⟩ 0 1000000000000 5 =
      (-EINVAL, ⟨1, ⟨7, 8, 9⟩⟩) :=
  set_config_no_fit ⟨1, ⟨7, 8, 9⟩⟩ 0 1000000000000 5
    (by decide) (by decide) (by decide)

/-- C3: each of set_polarity, set_config, enable and disable, called in the
uninitialized state, returns -EPERM and leaves the state unchanged. -/
theorem uninitialized_ops_fail (s : sunxi_pwm_state) (ch pol p d : Nat)
    (h : s.base_address = 0) :
    sunxi_pwm_set_polarity s ch pol = (-EPERM, s) ∧
    sunxi_pwm_set_config s ch p d = (-EPERM, s) ∧
    sunxi_pwm_enable s ch = (-EPERM, s) ∧
    sunxi_pwm_disable s ch = (-EPERM, s) := by
  unfold sunxi_pwm_set_polarity sunxi_pwm_set_config sunxi_pwm_enable
    sunxi_pwm_disable
  refine ⟨?_, ?_, ?_, ?_⟩ <;> rw [if_pos h]

/-- Witness for C3 on a concrete uninitialized state. -/
theorem uninitialized_ops_fail_witness :
    sunxi_pwm_set_polarity ⟨0, ⟨5, 7, 9⟩⟩ 1 2 = (-EPERM, ⟨0, ⟨5, 7, 9⟩⟩) ∧
    sunxi_pwm_set_config ⟨0, ⟨5, 7, 9⟩⟩ 1 3 4 = (-EPERM, ⟨0, ⟨5, 7, 9⟩⟩) ∧
    sunxi_pwm_enable ⟨0, ⟨5, 7, 9⟩⟩ 1 = (-EPERM, ⟨0, ⟨5, 7, 9⟩⟩) ∧
    sunxi_pwm_disable ⟨0, ⟨5, 7, 9⟩⟩ 1 = (-EPERM, ⟨0, ⟨5, 7, 9⟩⟩) :=
  uninitialized_ops_fail ⟨0, ⟨5, 7, 9⟩⟩ 1 2 3 4 rfl

/-- C6 counterexample: for period 20000000 ns at divisor 120 (table index 0)
the tick count is 4000, not 4000000 as the claim computes, it passes the
16-bit limit, and the search therefore selects index 0 instead of advancing. -/
theorem servo_example_counterexample :
    ticks64 20000000 0 = 4000 ∧ ticks64 20000000 0 ≠ 4000000 ∧
    pwm_search 20000000 0 0 = (0, 4000) := by decide

/-- C6 amended: for period 20000000 ns and duty 1500000 ns, set_config selects
the smallest-index prescaler whose tick count fits 16 bits, namely index 0
(divisor 120, tick count 4000, which fits), and the duty ticks equal
round-down of 4000 * 1500000 / 20000000 = 300. -/
theorem servo_example_amended (s : sunxi_pwm_state) (ch : Nat)
    (hinit : s.base_address ≠ 0) (hch : ch < 2) (hc : s.reg.ctrl < 2 ^ 32) :
    (sunxi_pwm_set_config s ch 20000000 1500000).1 = 0 ∧
    ((sunxi_pwm_set_config s ch 20000000 1500000).2.reg.ctrl >>>
      (15 * ch)) &&& 0xF = 0 ∧
    ch_period (sunxi_pwm_set_config s ch 20000000 1500000).2.reg ch =
      (4000 - 1) * 2 ^ 16 + 4000 * 1500000 / 20000000 := by
  have h := set_config_success_spec s ch 20000000 1500000 0 hinit hch hc
    (by decide) (by decide) (by decide)
    (fun k hk _ => absurd hk (Nat.not_lt_zero k))
  refine ⟨h.1, h.2.1, ?_⟩
  rw [h.2.2]
  decide

/-- Witness for C6 on a concrete initialized state and channel 0. -/
theorem servo_example_amended_witness :
    (sunxi_pwm_set_config ⟨1, ⟨3, 4, 5⟩⟩ 0 20000000 1500000).1 = 0 ∧
    ((sunxi_pwm_set_config ⟨1, ⟨3, 4, 5⟩⟩ 0 20000000 1500000).2.reg.ctrl >>>
      (15 * 0)) &&& 0xF = 0 ∧
    ch_period (sunxi_pwm_set_config ⟨1, ⟨3, 4, 5⟩⟩ 0 20000000 1500000).2.reg 0 =
      (4000 - 1) * 2 ^ 16 + 4000 * 1500000 / 20000000 :=
  servo_example_amended ⟨1, ⟨3, 4, 5⟩⟩ 0 (by decide) (by decide) (by decide)

/-- C10: if period_ns is so small that every nonzero prescaler-table entry
computes zero ticks, set_config returns -EINVAL on the post-loop check, before
the duty-cycle division by period_ns is ever reached, and modifies no
register; moreover every period below 5000 ns (in particular 0) computes zero
ticks at every nonzero table entry. -/
theorem set_config_small_period (s : sunxi_pwm_state) (ch p d : Nat)
    (hinit : s.base_address ≠ 0) (hch : ch < 2)
    (hz : ∀ k, k < 16 → prescaler_table k ≠ 0 → ticks64 p k = 0) :
    sunxi_pwm_set_config s ch p d = (-EINVAL, s) ∧
    (∀ q k, q < 5000 → k < 16 → prescaler_table k ≠ 0 → ticks64 q k = 0) := by
  constructor
  · apply set_config_einval s ch p d hinit
    intro k hk hnz
    rw [hz k (by omega) hnz]
    decide
  · intro q k hq hk _
    exact ticks64_zero_of_small q k hq hk

/-- Witness for C10 at period_ns = 0. -/
theorem set_config_small_period_witness :
    sunxi_pwm_set_config ⟨1, ⟨7, 8, 9⟩⟩ 1 0 0 = (-EINVAL, ⟨1, ⟨7, 8, 9⟩⟩) ∧
    (∀ q k, q < 5000 → k < 16 → prescaler_table k ≠ 0 → ticks64 q k = 0) :=
  set_config_small_period ⟨1, ⟨7, 8, 9⟩⟩ 1 0 0 (by decide) (by decide) (by decide)

/-- C4: after a successful set_config call the channel's clock-gating bit has
the same on/off value it had immediately before the call; reconfiguring never
implicitly starts or stops the channel's clock. -/
theorem set_config_preserves_clk_gating (s : sunxi_pwm_state) (ch p d : Nat)
    (hinit : s.base_address ≠ 0) (hch : ch < 2) (hc : s.reg.ctrl < 2 ^ 32)
    (hsucc : (sunxi_pwm_set_config s ch p d).1 = 0) :
    (sunxi_pwm_set_config s ch p d).2.reg.ctrl.testBit (6 + 15 * ch) =
      s.reg.ctrl.testBit (6 + 15 * ch) := by
  by_cases hfail : 0xFFFF < sub1_64 (pwm_search p 0 0).2
  · exfalso
    unfold sunxi_pwm_set_config at hsucc
    rw [if_neg hinit, if_pos hfail] at hsucc
    simp [EINVAL] at hsucc
  · obtain ⟨j, hj15, hnz, hok, heq⟩ := pwm_search_of_success p hfail
    unfold sunxi_pwm_set_config
    rw [if_neg hinit, if_neg hfail, heq]
    dsimp only
    rw [set_ch_period_ctrl]
    exact config_ctrl_gating s.reg.ctrl ch j hc hch (by omega)

/-- Witness for C4 on channel 1 with the gating bit initially set (bit 21). -/
theorem set_config_preserves_clk_gating_witness :
    (sunxi_pwm_set_config ⟨1, ⟨2097152, 0, 0⟩⟩ 1 20000000
      1500000).2.reg.ctrl.testBit (6 + 15 * 1) =
      (⟨1, ⟨2097152, 0, 0⟩⟩ : sunxi_pwm_state).reg.ctrl.testBit (6 + 15 * 1) :=
  set_config_preserves_clk_gating ⟨1, ⟨2097152, 0, 0⟩⟩ 1 20000000 1500000
    (by decide) (by decide) (by decide) (by decide)

/-- C5: set_polarity succeeds and changes at most the active-state bit
5 + 15*ch of the control register; every other control-register bit and both
period registers keep their previous values. -/
theorem set_polarity_frame (s : sunxi_pwm_state) (ch pol : Nat)
    (hinit : s.base_address ≠ 0) (hch : ch < 2) (hc : s.reg.ctrl < 2 ^ 32) :
    (sunxi_pwm_set_polarity s ch pol).1 = 0 ∧
    (∀ i, i ≠ 5 + 15 * ch →
      (sunxi_pwm_set_polarity s ch pol).2.reg.ctrl.testBit i =
        s.reg.ctrl.testBit i) ∧
    (sunxi_pwm_set_polarity s ch pol).2.reg.ch_period0 = s.reg.ch_period0 ∧
    (sunxi_pwm_set_polarity s ch pol).2.reg.ch_period1 = s.reg.ch_period1 := by
  unfold sunxi_pwm_set_polarity
  rw [if_neg hinit]
  refine ⟨rfl, ?_, rfl, rfl⟩
  intro i hi
  have h5 : ¬(5 + 15 * ch = i) := fun h => hi h.symm
  dsimp only
  by_cases hpol : pol = SUNXI_PWM_POLARITY_NORMAL
  · rw [if_pos hpol, testBit_mask32, Nat.testBit_or, ACT_eq, Nat.testBit_two_pow]
    by_cases h32 : i < 32
    · simp [h32, h5]
    · simp [h32, testBit_high i hc (by omega)]
  · rw [if_neg hpol, testBit_mask32, Nat.testBit_and, testBit_not32, ACT_eq,
      Nat.testBit_two_pow]
    by_cases h32 : i < 32
    · simp [h32, h5]
    · simp [h32, testBit_high i hc (by omega)]

/-- Witness for C5 on a concrete state, channel 0, inversed polarity. -/
theorem set_polarity_frame_witness :
    (sunxi_pwm_set_polarity ⟨1, ⟨12345, 3, 4⟩⟩ 0 7).1 = 0 ∧
    (∀ i, i ≠ 5 + 15 * 0 →
      (sunxi_pwm_set_polarity ⟨1, ⟨12345, 3, 4⟩⟩ 0 7).2.reg.ctrl.testBit i =
        (⟨1, ⟨12345, 3, 4⟩⟩ : sunxi_pwm_state).reg.ctrl.testBit i) ∧
    (sunxi_pwm_set_polarity ⟨1, ⟨12345, 3, 4⟩⟩ 0 7).2.reg.ch_period0 =
      (⟨1, ⟨12345, 3, 4⟩⟩ : sunxi_pwm_state).reg.ch_period0 ∧
    (sunxi_pwm_set_polarity ⟨1, ⟨12345, 3, 4⟩⟩ 0 7).2.reg.ch_period1 =
      (⟨1, ⟨12345, 3, 4⟩⟩ : sunxi_pwm_state).reg.ch_period1 :=
  set_polarity_frame ⟨1, ⟨12345, 3, 4⟩⟩ 0 7 (by decide) (by decide) (by decide)

/-- The two halves of the packed period-register word. -/
theorem period_reg_value_parts (prd dty : Nat) (h1 : 1 ≤ prd)
    (h2 : prd ≤ 2 ^ 16) :
    period_reg_value prd dty >>> 16 = prd - 1 ∧
    period_reg_value prd dty % 2 ^ 16 = dty % 2 ^ 16 := by
  unfold period_reg_value
  rw [sub1_32_eq h1 (le_trans h2 (by norm_num)), Nat.shiftLeft_eq,
    show (0xFFFF : Nat) = 2 ^ 16 - 1 from by norm_num,
    Nat.and_pow_two_sub_one_eq_mod]
  have hd : dty % 2 ^ 16 < 2 ^ 16 := Nat.mod_lt _ (by norm_num)
  have hb : (prd - 1) * 2 ^ 16 ≤ (2 ^ 16 - 1) * 2 ^ 16 :=
    Nat.mul_le_mul_right _ (by omega)
  have hm : mask32 ((prd - 1) * 2 ^ 16 + dty % 2 ^ 16) =
      (prd - 1) * 2 ^ 16 + dty % 2 ^ 16 := by
    apply Nat.mod_eq_of_lt
    unfold U32
    norm_num at hb ⊢
    omega
  rw [hm]
  constructor
  · rw [Nat.shiftRight_eq_div_pow, Nat.add_comm, Nat.mul_comm,
      Nat.add_mul_div_left _ _ (by norm_num : (0 : Nat) < 2 ^ 16),
      Nat.div_eq_of_lt hd]
    omega
  · rw [Nat.add_comm, Nat.mul_comm, Nat.add_mul_mod_self_left]
    exact Nat.mod_mod_of_dvd dty dvd_rfl

/-- C7: the bit-exact register layout.  For each channel the enable bit is
4 + 15*ch, the active-state bit 5 + 15*ch, the clock-gating bit 6 + 15*ch,
the prescaler selector the 4-bit field at offset 15*ch; the period register
packs (period ticks - 1) into bits 31-16 and the duty ticks, reduced to 16
bits, into bits 15-0. -/
theorem register_layout :
    (∀ ch, ch < 2 →
      SUNXI_PWM_EN ch = 2 ^ (4 + 15 * ch) ∧
      SUNXI_PWM_ACT_STATE ch = 2 ^ (5 + 15 * ch) ∧
      SUNXI_PWM_CLK_GATING ch = 2 ^ (6 + 15 * ch) ∧
      SUNXI_PWM_PRESCALAR ch 0xF = (2 ^ 4 - 1) * 2 ^ (15 * ch)) ∧
    (∀ prd dty, 1 ≤ prd → prd ≤ 2 ^ 16 →
      period_reg_value prd dty >>> 16 = prd - 1 ∧
      period_reg_value prd dty % 2 ^ 16 = dty % 2 ^ 16) := by
  constructor
  · intro ch _
    refine ⟨EN_eq ch, ACT_eq ch, GATING_eq ch, ?_⟩
    rw [PRESCALAR_eq]
    norm_num
  · intro prd dty h1 h2
    exact period_reg_value_parts prd dty h1 h2

/-- Witness for C7 at channel 1 and the packed word for 4000 ticks, duty 300. -/
theorem register_layout_witness :
    (SUNXI_PWM_EN 1 = 2 ^ (4 + 15 * 1) ∧
      SUNXI_PWM_ACT_STATE 1 = 2 ^ (5 + 15 * 1) ∧
      SUNXI_PWM_CLK_GATING 1 = 2 ^ (6 + 15 * 1) ∧
      SUNXI_PWM_PRESCALAR 1 0xF = (2 ^ 4 - 1) * 2 ^ (15 * 1)) ∧
    (period_reg_value 4000 300 >>> 16 = 4000 - 1 ∧
      period_reg_value 4000 300 % 2 ^ 16 = 300 % 2 ^ 16) :=
  ⟨register_layout.1 1 (by decide),
    register_layout.2 4000 300 (by decide) (by decide)⟩

/-- Bit map of the control register written by sunxi_pwm_enable: the channel's
enable and clock-gating bits are set, everything else is kept. -/
theorem enable_ctrl_testBit (c ch : Nat) (hc : c < 2 ^ 32) (hch : ch < 2)
    (i : Nat) :
    (mask32 (mask32 (c ||| SUNXI_PWM_EN ch) |||
        SUNXI_PWM_CLK_GATING ch)).testBit i =
      if i = 4 + 15 * ch then true
      else if i = 6 + 15 * ch then true
      else c.testBit i := by
  simp only [testBit_mask32, Nat.testBit_or, EN_eq, GATING_eq,
    Nat.testBit_two_pow]
  by_cases h32 : i < 32
  · by_cases h4 : i = 4 + 15 * ch
    · subst h4
      have ha : 4 + 15 * ch < 32 := by omega
      have hb : ¬(6 + 15 * ch = 4 + 15 * ch) := by omega
      simp [ha, hb]
    · by_cases h6 : i = 6 + 15 * ch
      · subst h6
        have ha : 6 + 15 * ch < 32 := by omega
        simp [ha]
      · have e4 : ¬(4 + 15 * ch = i) := fun h => h4 h.symm
        have e6 : ¬(6 + 15 * ch = i) := fun h => h6 h.symm
        simp [h32, e4, e6, h4, h6]
  · have e0 : c.testBit i = false := testBit_high i hc (by omega)
    have h4 : ¬(i = 4 + 15 * ch) := by omega
    have h6 : ¬(i = 6 + 15 * ch) := by omega
    simp [h32, e0, h4, h6]

/-- Bit map of the control register after sunxi_pwm_enable followed by
sunxi_pwm_disable: the channel's enable and clock-gating bits end up cleared,
everything else is kept. -/
theorem enable_disable_ctrl_testBit (c ch : Nat) (hc : c < 2 ^ 32)
    (hch : ch < 2) (i : Nat) :
    (mask32 (mask32 ((mask32 (mask32 (c ||| SUNXI_PWM_EN ch) |||
          SUNXI_PWM_CLK_GATING ch)) &&& not32 (SUNXI_PWM_EN ch)) &&&
        not32 (SUNXI_PWM_CLK_GATING ch))).testBit i =
      if i = 4 + 15 * ch then false
      else if i = 6 + 15 * ch then false
      else c.testBit i := by
  rw [testBit_mask32, Nat.testBit_and, testBit_not32, testBit_mask32,
    Nat.testBit_and, testBit_not32, enable_ctrl_testBit c ch hc hch i,
    EN_eq, GATING_eq, Nat.testBit_two_pow, Nat.testBit_two_pow]
  by_cases h32 : i < 32
  · by_cases h4 : i = 4 + 15 * ch
    · subst h4
      have ha : 4 + 15 * ch < 32 := by omega
      simp [ha]
    · by_cases h6 : i = 6 + 15 * ch
      · subst h6
        have ha : 6 + 15 * ch < 32 := by omega
        simp [ha]
      · have e4 : ¬(4 + 15 * ch = i) := fun h => h4 h.symm
        have e6 : ¬(6 + 15 * ch = i) := fun h => h6 h.symm
        simp [h32, e4, e6, h4, h6]
  · have e0 : c.testBit i = false := testBit_high i hc (by omega)
    have h4 : ¬(i = 4 + 15 * ch) := by omega
    have h6 : ¬(i = 6 + 15 * ch) := by omega
    simp [h32, e0, h4, h6]

/-- C8 counterexample: starting from a state whose channel-0 enable bit is
already set (ctrl = 16), enable followed by disable clears it, so the
enable bit is not restored to its pre-enable value. -/
theorem enable_disable_counterexample :
    (sunxi_pwm_disable
        (sunxi_pwm_enable ⟨1, ⟨16, 0, 0⟩⟩ 0).2 0).2.reg.ctrl.testBit
        (4 + 15 * 0) ≠
      (⟨1, ⟨16, 0, 0⟩⟩ : sunxi_pwm_state).reg.ctrl.testBit (4 + 15 * 0) := by
  decide

/-- C8 amended: enable followed by disable leaves the channel's enable and
clock-gating bits cleared (hence equal to their pre-enable values exactly when
both were clear before the enable call), and neither call changes any other
control-register bit or any period register. -/
theorem enable_then_disable (s : sunxi_pwm_state) (ch : Nat)
    (hinit : s.base_address ≠ 0) (hch : ch < 2) (hc : s.reg.ctrl < 2 ^ 32) :
    ((sunxi_pwm_disable (sunxi_pwm_enable s ch).2 ch).2.reg.ctrl.testBit
      (4 + 15 * ch) = false) ∧
    ((sunxi_pwm_disable (sunxi_pwm_enable s ch).2 ch).2.reg.ctrl.testBit
      (6 + 15 * ch) = false) ∧
    (∀ i, i ≠ 4 + 15 * ch → i ≠ 6 + 15 * ch →
      (sunxi_pwm_enable s ch).2.reg.ctrl.testBit i = s.reg.ctrl.testBit i ∧
      (sunxi_pwm_disable (sunxi_pwm_enable s ch).2 ch).2.reg.ctrl.testBit i =
        s.reg.ctrl.testBit i) ∧
    (sunxi_pwm_enable s ch).2.reg.ch_period0 = s.reg.ch_period0 ∧
    (sunxi_pwm_enable s ch).2.reg.ch_period1 = s.reg.ch_period1 ∧
    (sunxi_pwm_disable (sunxi_pwm_enable s ch).2 ch).2.reg.ch_period0 =
      s.reg.ch_period0 ∧
    (sunxi_pwm_disable (sunxi_pwm_enable s ch).2 ch).2.reg.ch_period1 =
      s.reg.ch_period1 := by
  have hen : sunxi_pwm_enable s ch =
      (0, { s with reg := { s.reg with ctrl :=
        (mask32 (mask32 (s.reg.ctrl ||| SUNXI_PWM_EN ch) |||
          SUNXI_PWM_CLK_GATING ch)) } }) := by
    unfold sunxi_pwm_enable
    rw [if_neg hinit]
  have hdis : sunxi_pwm_disable (sunxi_pwm_enable s ch).2 ch =
      (0, { s with reg := { s.reg with ctrl :=
        (mask32 (mask32 ((mask32 (mask32 (s.reg.ctrl ||| SUNXI_PWM_EN ch) |||
            SUNXI_PWM_CLK_GATING ch)) &&& not32 (SUNXI_PWM_EN ch)) &&&
          not32 (SUNXI_PWM_CLK_GATING ch))) } }) := by
    rw [hen]
    unfold sunxi_pwm_disable
    dsimp only
    rw [if_neg hinit]
  rw [hdis, hen]
  dsimp only
  have hne : ¬(6 + 15 * ch = 4 + 15 * ch) := by omega
  refine ⟨?_, ?_, ?_, rfl, rfl, rfl, rfl⟩
  · rw [enable_disable_ctrl_testBit s.reg.ctrl ch hc hch]
    simp
  · rw [enable_disable_ctrl_testBit s.reg.ctrl ch hc hch]
    simp [hne]
  · intro i h4 h6
    constructor
    · rw [enable_ctrl_testBit s.reg.ctrl ch hc hch]
      simp [h4, h6]
    · rw [enable_disable_ctrl_testBit s.reg.ctrl ch hc hch]
      simp [h4, h6]

/-- Witness for C8 on a concrete initialized state and channel 0. -/
theorem enable_then_disable_witness :
    ((sunxi_pwm_disable (sunxi_pwm_enable ⟨1, ⟨0, 11, 12⟩⟩ 0).2 0).2.reg.ctrl.testBit
      (4 + 15 * 0) = false) ∧
    ((sunxi_pwm_disable (sunxi_pwm_enable ⟨1, ⟨0, 11, 12⟩⟩ 0).2 0).2.reg.ctrl.testBit
      (6 + 15 * 0) = false) ∧
    (∀ i, i ≠ 4 + 15 * 0 → i ≠ 6 + 15 * 0 →
      (sunxi_pwm_enable ⟨1, ⟨0, 11, 12⟩⟩ 0).2.reg.ctrl.testBit i =
        (⟨1, ⟨0, 11, 12⟩⟩ : sunxi_pwm_state).reg.ctrl.testBit i ∧
      (sunxi_pwm_disable (sunxi_pwm_enable ⟨1, ⟨0, 11, 12⟩⟩ 0).2 0).2.reg.ctrl.testBit i =
        (⟨1, ⟨0, 11, 12⟩⟩ : sunxi_pwm_state).reg.ctrl.testBit i) ∧
    (sunxi_pwm_enable ⟨1, ⟨0, 11, 12⟩⟩ 0).2.reg.ch_period0 =
      (⟨1, ⟨0, 11, 12⟩⟩ : sunxi_pwm_state).reg.ch_period0 ∧
    (sunxi_pwm_enable ⟨1, ⟨0, 11, 12⟩⟩ 0).2.reg.ch_period1 =
      (⟨1, ⟨0, 11, 12⟩⟩ : sunxi_pwm_state).reg.ch_period1 ∧
    (sunxi_pwm_disable (sunxi_pwm_enable ⟨1, ⟨0, 11, 12⟩⟩ 0).2 0).2.reg.ch_period0 =
      (⟨1, ⟨0, 11, 12⟩⟩ : sunxi_pwm_state).reg.ch_period0 ∧
    (sunxi_pwm_disable (sunxi_pwm_enable ⟨1, ⟨0, 11, 12⟩⟩ 0).2 0).2.reg.ch_period1 =
      (⟨1, ⟨0, 11, 12⟩⟩ : sunxi_pwm_state).reg.ch_period1 :=
  enable_then_disable ⟨1, ⟨0, 11, 12⟩⟩ 0 (by decide) (by decide) (by decide)

/-- C9 counterexample: at period 2^60 ns and table index 0 the 64-bit product
wraps around, so the computed tick count (0) differs from the exact
mathematical value. -/
theorem ticks64_overflow_counterexample :
    ticks64 (2 ^ 60) 0 ≠ exact_ticks (2 ^ 60) 0 := by decide

/-- C9 amended: the tick computation in set_config equals the exact
mathematical integer value whenever the product
(24000000 / divisor) * period_ns stays below 2^64; for larger period_ns the
64-bit multiplication wraps and the two values differ. -/
theorem ticks64_exact_amended (p i : Nat)
    (h : 24000000 / prescaler_table i * p < 2 ^ 64) :
    ticks64 p i = exact_ticks p i := by
  unfold ticks64 exact_ticks mask64 U64
  rcases Nat.eq_zero_or_pos (24000000 / prescaler_table i) with h0 | h1
  · rw [h0]
    simp
  · have hp : p < 2 ^ 64 := lt_of_le_of_lt (Nat.le_mul_of_pos_left p h1) h
    rw [Nat.mod_eq_of_lt hp, Nat.mod_eq_of_lt h]

/-- Witness for C9 at the servo period, where no wraparound occurs. -/
theorem ticks64_exact_amended_witness :
    24000000 / prescaler_table 0 * 20000000 < 2 ^ 64 ∧
    ticks64 20000000 0 = exact_ticks 20000000 0 :=
  ⟨by decide, ticks64_exact_amended 20000000 0 (by decide)⟩

end Sunxi
